/-
  Verification of the statistics polling-and-aggregation pipeline of the
  vite-electron-starter repository.

  Shallow embedding of:
  * `src/features/dashboard/hooks/useSystemStats.ts` (the hook: availability
    detection, refresh cycle, history buffer, clear-history, system-info
    one-shot effect);
  * `electron/main.ts` (the `get-top-processes` IPC handler);
  * `src/features/dashboard/components/ProcessesSection.tsx` (consumer-side
    sort of the process list).

  JavaScript numbers are modelled as `ℚ` where ordering/rounding matters and
  as `Int` for identifiers and timestamps; `T | null` becomes `Option T`;
  the asynchronous refresh cycle becomes a small-step machine over an
  explicit hook state (React state + the `isRunningRef` guard), with fetch
  invocations counted so that "no fetch happens" is expressible.
-/
import Mathlib

/-! ### Data model (src/shared/types/electron.d.ts, dashboard.types.ts) -/

/-- `IMemoryStats` from electron.d.ts: total/used/free bytes and used percent. -/
structure IMemoryStats where
  total : ℚ
  used : ℚ
  free : ℚ
  usedPercent : ℚ
deriving DecidableEq

/-- `INetworkStats` from electron.d.ts: cumulative byte counters and rates. -/
structure INetworkStats where
  rxBytes : ℚ
  txBytes : ℚ
  rxSec : ℚ
  txSec : ℚ
deriving DecidableEq

/-- `ISystemInfo` from electron.d.ts. -/
structure ISystemInfo where
  cpuModel : String
  cpuCores : Int
  osName : String
  osVersion : String
  hostname : String
deriving DecidableEq

/-- `IProcessInfo` from electron.d.ts: one entry of the top-processes list. -/
structure IProcessInfo where
  pid : Int
  name : String
  cpu : ℚ
  memory : ℚ
  memoryPercent : ℚ
deriving DecidableEq

/-- `IStatsHistoryPoint` from dashboard.types.ts: one timestamped sample pair. -/
structure IStatsHistoryPoint where
  timestamp : Int
  memory : Option IMemoryStats
  network : Option INetworkStats
deriving DecidableEq

/-- `IStatsState` from dashboard.types.ts: the record held in React state. -/
structure IStatsState where
  memory : Option IMemoryStats
  network : Option INetworkStats
  systemInfo : Option ISystemInfo
  processes : Option (List IProcessInfo)
  history : List IStatsHistoryPoint
  isLoading : Bool
  error : Option String
deriving DecidableEq

/-- `STATS_DEFAULTS.POLL_INTERVAL` (dashboard.types.ts). -/
def STATS_DEFAULTS_POLL_INTERVAL : Nat := 2000

/-- `STATS_DEFAULTS.MAX_HISTORY_LENGTH` (dashboard.types.ts). -/
def STATS_DEFAULTS_MAX_HISTORY_LENGTH : Nat := 60

/-- `createInitialState` (useSystemStats.ts lines 30-40). -/
def createInitialState : IStatsState :=
  { memory := none
    network := none
    systemInfo := none
    processes := none
    history := []
    isLoading := true
    error := none }

/-! ### Availability detector (useSystemStats.ts lines 21-25)

`isElectronStatsAvailable` probes the runtime:
`typeof window !== 'undefined' && window.electronAPI !== undefined &&
 typeof window.electronAPI.getMemoryStats === 'function'`.
We model the runtime as a window that may be undefined, carrying an optional
`electronAPI` object on which each query field may or may not be a callable
function. -/

/-- Shape of a runtime `window.electronAPI` object: for each of the four
stats query fields, whether `typeof field === 'function'` holds. -/
structure ElectronAPIShape where
  getMemoryStats : Bool
  getNetworkStats : Bool
  getSystemInfo : Bool
  getTopProcesses : Bool
deriving DecidableEq

/-- The runtime global: whether `window` is defined, and its `electronAPI`. -/
structure RuntimeWindow where
  windowDefined : Bool
  electronAPI : Option ElectronAPIShape
deriving DecidableEq

/-- `isElectronStatsAvailable` (useSystemStats.ts lines 21-25): window is
defined, `electronAPI` is not undefined, and `getMemoryStats` is a function. -/
def isElectronStatsAvailable (w : RuntimeWindow) : Bool :=
  w.windowDefined &&
    (match w.electronAPI with
     | none => false
     | some api => api.getMemoryStats)

/-- Modelled from the spec (§4.1): "the adapter's query functions are present
and callable in the current environment" — all four query fields of the
capability object are callable functions. Spec-side definition, for
comparison with `isElectronStatsAvailable`. -/
def allStatsQueryFunctionsCallable (w : RuntimeWindow) : Bool :=
  w.windowDefined &&
    (match w.electronAPI with
     | none => false
     | some api =>
         api.getMemoryStats && api.getNetworkStats &&
           api.getSystemInfo && api.getTopProcesses)

/-! ### The hook as a small-step machine (useSystemStats.ts lines 68-240)

The hook owns: the React `state : IStatsState`, the `isRunningRef` guard,
and the fixed `isAvailable`/`maxHistoryLength` configuration.  A refresh
cycle splits at its `await` into two steps: `refreshCall` is the synchronous
prefix of `refreshStats` (availability check, guard check, marking in-flight
and issuing the three fetches), and `refreshSettle` is the continuation that
runs when `Promise.all` resolves with the three results (the per-fetch
wrappers catch internally and deliver `null` on failure, hence `Option`
inputs and no exception path).  `clearHistoryCall` and `systemInfoSettle`
model `clearHistory` and the mount effect's state merge.  Fetch invocations
are counted so "no fetch is made" is a statement about the machine. -/

/-- Fixed configuration of one hook instance: `isAvailable` (computed once at
line 76) and the `maxHistoryLength` option (default 60). -/
structure HookConfig where
  isAvailable : Bool
  maxHistoryLength : Nat
deriving DecidableEq

/-- Full machine state: React state, the `isRunningRef` guard, and counters
of adapter invocations (one per query kind). -/
structure HookState where
  state : IStatsState
  isRunning : Bool
  memFetches : Nat
  netFetches : Nat
  procFetches : Nat
  infoFetches : Nat
deriving DecidableEq

/-- The history update inside the `setState` of `refreshStats`
(useSystemStats.ts lines 163-166): append the new point, then `shift()`
once (drop the front element) when the length exceeds `maxHistoryLength`. -/
def appendBounded (maxHistoryLength : Nat) (h : List IStatsHistoryPoint)
    (p : IStatsHistoryPoint) : List IStatsHistoryPoint :=
  let newHistory := h ++ [p]
  if maxHistoryLength < newHistory.length then newHistory.tail else newHistory

/-- Events of the hook machine. -/
inductive HookEvent where
  | refreshCall : HookEvent
  | refreshSettle (memory : Option IMemoryStats) (network : Option INetworkStats)
      (processes : Option (List IProcessInfo)) (timestamp : Int) : HookEvent
  | clearHistoryCall : HookEvent
  | systemInfoSettle (info : Option ISystemInfo) : HookEvent
deriving DecidableEq

/-- One step of the hook machine (useSystemStats.ts lines 135-212).

* `refreshCall`: lines 135-153.  If unavailable, `setState` installs
  `isLoading: false, error: 'Electron API not available'` and returns with
  no fetch.  Otherwise, if `isRunningRef.current` the call returns with no
  change; else it sets the guard and issues the three fetches via
  `Promise.all` (each wrapper reaches the adapter since `isAvailable`).
* `refreshSettle`: lines 155-187.  Only meaningful while in flight: builds
  the history point from the results and `Date.now()`, appends it bounded by
  `maxHistoryLength`, writes the three snapshot fields, clears the error,
  ends loading, and the `finally` releases the guard.
* `clearHistoryCall`: lines 193-198, `setState` with `history: []` only.
* `systemInfoSettle`: lines 206-211, `setState` with the fetched info. -/
def hookStep (cfg : HookConfig) (e : HookEvent) (s : HookState) : HookState :=
  match e with
  | .refreshCall =>
      if cfg.isAvailable = false then
        { s with state := { s.state with
            isLoading := false
            error := some "Electron API not available" } }
      else if s.isRunning then s
      else
        { s with
            isRunning := true
            memFetches := s.memFetches + 1
            netFetches := s.netFetches + 1
            procFetches := s.procFetches + 1 }
  | .refreshSettle memory network processes timestamp =>
      if s.isRunning then
        let historyPoint : IStatsHistoryPoint :=
          { timestamp := timestamp, memory := memory, network := network }
        { s with
            state := { s.state with
              memory := memory
              network := network
              processes := processes
              history := appendBounded cfg.maxHistoryLength s.state.history historyPoint
              isLoading := false
              error := none }
            isRunning := false }
      else s
  | .clearHistoryCall =>
      { s with state := { s.state with history := [] } }
  | .systemInfoSettle info =>
      { s with state := { s.state with systemInfo := info } }

/-- The machine state at construction of the hook (line 75: React state is
`createInitialState`, the guard starts false, no fetch has happened). -/
def initialHookState : HookState :=
  { state := createInitialState
    isRunning := false
    memFetches := 0
    netFetches := 0
    procFetches := 0
    infoFetches := 0 }

/-- The mount effect (useSystemStats.ts lines 203-212): runs once after the
initial render; when available it invokes `fetchSystemInfo` (one identity
query against the adapter).  Its eventual `setState` is the
`systemInfoSettle` event. -/
def mountEffect (cfg : HookConfig) (s : HookState) : HookState :=
  if cfg.isAvailable then { s with infoFetches := s.infoFetches + 1 } else s

/-- Hook state at session start: initial state after the one-shot mount
effect has fired. -/
def sessionInit (cfg : HookConfig) : HookState :=
  mountEffect cfg initialHookState

/-- The adapter results delivered to one settled refresh tick. -/
structure TickInput where
  memory : Option IMemoryStats
  network : Option INetworkStats
  processes : Option (List IProcessInfo)
  timestamp : Int
deriving DecidableEq

/-- The history point a settled tick constructs (lines 156-160). -/
def mkHistoryPoint (t : TickInput) : IStatsHistoryPoint :=
  { timestamp := t.timestamp, memory := t.memory, network := t.network }

/-- One complete, successful refresh tick: the synchronous call followed by
the settlement of its three fetches (a sequential `await refreshStats()`). -/
def tick (cfg : HookConfig) (t : TickInput) (s : HookState) : HookState :=
  hookStep cfg (.refreshSettle t.memory t.network t.processes t.timestamp)
    (hookStep cfg .refreshCall s)

/-- A sequence of successful refresh ticks, oldest input first. -/
def runTicks (cfg : HookConfig) (inputs : List TickInput) (s : HookState) :
    HookState :=
  inputs.foldl (fun acc t => tick cfg t acc) s

/-- Repeated bounded append, for reasoning about tick sequences. -/
def foldAppend (maxHistoryLength : Nat) (h : List IStatsHistoryPoint)
    (ps : List IStatsHistoryPoint) : List IStatsHistoryPoint :=
  ps.foldl (appendBounded maxHistoryLength) h

/-! ### Top-processes IPC handler (electron/main.ts lines 195-228)

The handler sorts `si.processes().list` by the comparator
`(a, b) => { const cpuDiff = b.cpu - a.cpu; if (cpuDiff !== 0) return cpuDiff;
return (b.memRss || 0) - (a.memRss || 0) }` (descending CPU, ties broken by
descending resident memory), takes the first `count`, and maps each entry to
an `IProcessInfo` with CPU rounded to two decimals and the memory percentage
computed from `mem.total`.  JS `Array.prototype.sort` with a comparator is a
stable sort into the comparator's order; we model it with
`List.insertionSort` over the relation "comparator result is ≤ 0". -/

/-- One entry of `si.processes().list` as the handler reads it:
`pid`, `name`, `cpu` and the possibly-absent `memRss`. -/
structure SIProcess where
  pid : Int
  name : String
  cpu : ℚ
  memRss : Option ℚ
deriving DecidableEq

/-- `a` sorts no later than `b` under the handler's comparator:
`b.cpu - a.cpu` when nonzero, else `(b.memRss || 0) - (a.memRss || 0)`,
nonpositive. -/
def procBefore (a b : SIProcess) : Prop :=
  b.cpu < a.cpu ∨ (b.cpu = a.cpu ∧ b.memRss.getD 0 ≤ a.memRss.getD 0)

instance : DecidableRel procBefore := fun a b => by
  unfold procBefore; infer_instance

instance : IsTotal SIProcess procBefore where
  total a b := by
    unfold procBefore
    rcases lt_trichotomy b.cpu a.cpu with h | h | h
    · exact Or.inl (Or.inl h)
    · rcases le_total (b.memRss.getD 0) (a.memRss.getD 0) with hm | hm
      · exact Or.inl (Or.inr ⟨h, hm⟩)
      · exact Or.inr (Or.inr ⟨h.symm, hm⟩)
    · exact Or.inr (Or.inl h)

instance : IsTrans SIProcess procBefore where
  trans a b c hab hbc := by
    unfold procBefore at *
    rcases hab with hab | ⟨hab, hab'⟩ <;> rcases hbc with hbc | ⟨hbc, hbc'⟩
    · exact Or.inl (hbc.trans hab)
    · exact Or.inl (hbc ▸ hab)
    · exact Or.inl (hab ▸ hbc)
    · exact Or.inr ⟨hbc.trans hab, hbc'.trans hab'⟩

/-- JS `Math.round`: round half toward positive infinity. -/
def jsRound (q : ℚ) : Int := ⌊q + 1 / 2⌋

/-- `Math.round(proc.cpu * 100) / 100` (main.ts line 215). -/
def roundCpu (cpu : ℚ) : ℚ := (jsRound (cpu * 100) : ℚ) / 100

/-- `Math.round(((proc.memRss || 0) / mem.total) * 10000) / 100`
(main.ts lines 217-219), guarded by `mem.total > 0`. -/
def memPercentOf (memRss : Option ℚ) (memTotal : ℚ) : ℚ :=
  if 0 < memTotal then (jsRound (memRss.getD 0 / memTotal * 10000) : ℚ) / 100
  else 0

/-- The `get-top-processes` handler body (main.ts lines 195-228) on a
successfully fetched process list and memory total: empty-list guard, sort,
`slice(0, count)`, and the per-entry mapping. -/
def getTopProcesses (list : List SIProcess) (memTotal : ℚ) (count : Nat) :
    List IProcessInfo :=
  if list.length = 0 then []
  else
    ((list.insertionSort procBefore).take count).map fun proc =>
      { pid := proc.pid
        name := proc.name
        cpu := roundCpu proc.cpu
        memory := proc.memRss.getD 0
        memoryPercent := memPercentOf proc.memRss memTotal }

/-! ### Consumer-side ordering (ProcessesSection.tsx lines 141-174) -/

/-- The `SortType` of ProcessesSection: sort by CPU or by memory. -/
inductive SortType where
  | cpu : SortType
  | memory : SortType
deriving DecidableEq

/-- `a` sorts no later than `b` under the ProcessesSection comparator
`(a, b) => sortBy === 'cpu' ? b.cpu - a.cpu : b.memoryPercent - a.memoryPercent`. -/
def consumerBefore (sortBy : SortType) (a b : IProcessInfo) : Prop :=
  match sortBy with
  | .cpu => b.cpu ≤ a.cpu
  | .memory => b.memoryPercent ≤ a.memoryPercent

instance (sortBy : SortType) : DecidableRel (consumerBefore sortBy) :=
  fun a b => by cases sortBy <;> · unfold consumerBefore; infer_instance

instance (sortBy : SortType) : IsTotal IProcessInfo (consumerBefore sortBy) where
  total a b := by cases sortBy <;> · unfold consumerBefore; exact le_total _ _

instance (sortBy : SortType) : IsTrans IProcessInfo (consumerBefore sortBy) where
  trans a b c hab hbc := by
    cases sortBy <;> · unfold consumerBefore at *; exact hbc.trans hab

/-- `sortedProcesses` of ProcessesSection (lines 169-173): a sorted copy of
the current process list, empty when `processes` is null. -/
def sortedProcesses (sortBy : SortType)
    (processes : Option (List IProcessInfo)) : List IProcessInfo :=
  match processes with
  | some ps => ps.insertionSort (consumerBefore sortBy)
  | none => []

/-! ### Helper lemmas -/

/-- A bounded append from a within-bounds history stays within bounds. -/
theorem appendBounded_length_le {maxLen : Nat} {h : List IStatsHistoryPoint}
    (p : IStatsHistoryPoint) (hle : h.length ≤ maxLen) :
    (appendBounded maxLen h p).length ≤ maxLen := by
  unfold appendBounded
  by_cases hc : maxLen < (h ++ [p]).length
  · simp only [hc, if_true]
    simp only [List.length_append, List.length_singleton] at hc ⊢
    simp [List.length_tail]
    omega
  · simp only [hc, if_false]
    simp only [List.length_append, List.length_singleton] at hc ⊢
    omega

/-- From a within-bounds history, repeated bounded appends keep exactly the
suffix of the concatenation that fits the capacity. -/
theorem foldAppend_eq_drop (maxLen : Nat) :
    ∀ (ps : List IStatsHistoryPoint) (h : List IStatsHistoryPoint),
      h.length ≤ maxLen →
      foldAppend maxLen h ps = (h ++ ps).drop (h.length + ps.length - maxLen)
  | [], h, hle => by
      simp [foldAppend, Nat.sub_eq_zero_of_le hle]
  | p :: tl, h, hle => by
      have step : foldAppend maxLen h (p :: tl) =
          foldAppend maxLen (appendBounded maxLen h p) tl := by
        simp [foldAppend, List.foldl_cons]
      rw [step]
      by_cases hlt : h.length < maxLen
      · have hb : appendBounded maxLen h p = h ++ [p] := by
          unfold appendBounded
          simp only [List.length_append, List.length_singleton]
          have : ¬ maxLen < h.length + 1 := by omega
          simp [this]
        rw [hb, foldAppend_eq_drop maxLen tl (h ++ [p]) (by simp; omega)]
        have harr : (h ++ [p]) ++ tl = h ++ p :: tl := by simp
        rw [harr]
        congr 1
        simp
        omega
      · have heq : h.length = maxLen := by omega
        have hb : appendBounded maxLen h p = (h ++ [p]).tail := by
          unfold appendBounded
          simp only [List.length_append, List.length_singleton]
          have : maxLen < h.length + 1 := by omega
          simp [this]
        rw [hb]
        cases h with
        | nil =>
            have hm0 : maxLen = 0 := by simp at heq; omega
            subst hm0
            rw [foldAppend_eq_drop 0 tl _ (by simp)]
            simp
        | cons a h' =>
            have hn : h'.length + 1 = maxLen := by simpa using heq
            have htl : ((a :: h') ++ [p]).tail = h' ++ [p] := by simp
            rw [htl, foldAppend_eq_drop maxLen tl (h' ++ [p]) (by simp; omega)]
            have hidx1 : (h' ++ [p]).length + tl.length - maxLen = tl.length := by
              simp
              omega
            have hidx2 : (a :: h').length + (p :: tl).length - maxLen =
                tl.length + 1 := by
              simp
              omega
            rw [hidx1, hidx2]
            have hL : (a :: h') ++ p :: tl = a :: (h' ++ p :: tl) := by simp
            rw [hL, List.drop_succ_cons]
            have hM : h' ++ [p] ++ tl = h' ++ p :: tl := by simp
            rw [hM]

/-- A successful tick from an idle, available hook: the whole resulting
machine state, spelled out. -/
theorem tick_eq {cfg : HookConfig} {s : HookState} (t : TickInput)
    (hav : cfg.isAvailable = true) (hrun : s.isRunning = false) :
    tick cfg t s =
      { state := { memory := t.memory
                   network := t.network
                   systemInfo := s.state.systemInfo
                   processes := t.processes
                   history := appendBounded cfg.maxHistoryLength
                     s.state.history (mkHistoryPoint t)
                   isLoading := false
                   error := none }
        isRunning := false
        memFetches := s.memFetches + 1
        netFetches := s.netFetches + 1
        procFetches := s.procFetches + 1
        infoFetches := s.infoFetches } := by
  simp [tick, hookStep, hav, hrun, mkHistoryPoint]

/-- Running a sequence of successful ticks from an idle, available hook:
the history evolves by repeated bounded append, the guard ends idle, and
neither the identity-fetch counter nor the stored system info changes. -/
theorem runTicks_spec {cfg : HookConfig} (hav : cfg.isAvailable = true) :
    ∀ (inputs : List TickInput) (s : HookState), s.isRunning = false →
      (runTicks cfg inputs s).state.history =
          foldAppend cfg.maxHistoryLength s.state.history
            (inputs.map mkHistoryPoint) ∧
        (runTicks cfg inputs s).isRunning = false ∧
        (runTicks cfg inputs s).infoFetches = s.infoFetches ∧
        (runTicks cfg inputs s).state.systemInfo = s.state.systemInfo
  | [], s, hrun => by simp [runTicks, foldAppend, hrun]
  | t :: tl, s, hrun => by
      have hstep : runTicks cfg (t :: tl) s = runTicks cfg tl (tick cfg t s) := by
        simp [runTicks, List.foldl_cons]
      have hs' := tick_eq t hav hrun
      have hrun' : (tick cfg t s).isRunning = false := by rw [hs']
      obtain ⟨ih1, ih2, ih3, ih4⟩ := runTicks_spec hav tl (tick cfg t s) hrun'
      refine ⟨?_, ?_, ?_, ?_⟩
      · rw [hstep, ih1, hs']
        simp [foldAppend, List.foldl_cons]
      · rw [hstep]; exact ih2
      · rw [hstep, ih3, hs']
      · rw [hstep, ih4, hs']

/-- The last element of a bounded append is the appended point, as long as
the capacity is positive. -/
theorem appendBounded_getLast (maxLen : Nat) (h : List IStatsHistoryPoint)
    (p : IStatsHistoryPoint) (hpos : 0 < maxLen) :
    (appendBounded maxLen h p).getLast? = some p := by
  unfold appendBounded
  by_cases hc : maxLen < (h ++ [p]).length
  · simp only [hc, if_true]
    cases h with
    | nil => simp at hc; omega
    | cons a h' =>
        have htl : ((a :: h') ++ [p]).tail = h' ++ [p] := by simp
        rw [htl, List.getLast?_concat]
  · have hc' : ¬ maxLen < h.length + 1 := by simpa using hc
    simp only [List.length_append, List.length_singleton, hc', if_false]
    rw [List.getLast?_concat]

/-! ### Claims -/

/-- C1: the history buffer never exceeds `maxHistoryLength` (every machine
step preserves the bound), and a sequence of N successful refresh ticks with
N > maxHistoryLength, starting at session start, leaves exactly the most
recent maxHistoryLength points in chronological (insertion) order — the
suffix of the appended points, the older ones evicted from the front —
with length exactly maxHistoryLength. -/
theorem bounded_history_c1 (cfg : HookConfig) (e : HookEvent) (s : HookState)
    (inputs : List TickInput) (hav : cfg.isAvailable = true)
    (hlen : cfg.maxHistoryLength < inputs.length) :
    (s.state.history.length ≤ cfg.maxHistoryLength →
      (hookStep cfg e s).state.history.length ≤ cfg.maxHistoryLength) ∧
    (runTicks cfg inputs (sessionInit cfg)).state.history =
        (inputs.map mkHistoryPoint).drop (inputs.length - cfg.maxHistoryLength) ∧
    (runTicks cfg inputs (sessionInit cfg)).state.history.length =
        cfg.maxHistoryLength := by
  have hinit_run : (sessionInit cfg).isRunning = false := by
    unfold sessionInit mountEffect
    split_ifs
    all_goals rfl
  have hinit_hist : (sessionInit cfg).state.history = [] := by
    unfold sessionInit mountEffect
    split_ifs
    all_goals rfl
  obtain ⟨hh, -, -, -⟩ := runTicks_spec hav inputs (sessionInit cfg) hinit_run
  have hdrop : (runTicks cfg inputs (sessionInit cfg)).state.history =
      (inputs.map mkHistoryPoint).drop (inputs.length - cfg.maxHistoryLength) := by
    rw [hh, hinit_hist,
      foldAppend_eq_drop cfg.maxHistoryLength (inputs.map mkHistoryPoint) []
        (by simp)]
    simp
  refine ⟨?_, hdrop, ?_⟩
  · intro hle
    cases e with
    | refreshCall =>
        simp only [hookStep]
        split_ifs <;> simpa
    | refreshSettle m n procs ts =>
        simp only [hookStep]
        by_cases hr : s.isRunning
        · simp only [hr, if_true]
          exact appendBounded_length_le _ hle
        · simpa [hr]
    | clearHistoryCall => simp [hookStep]
    | systemInfoSettle info => simpa [hookStep]
  · rw [hdrop]
    simp
    omega

/-- C1 witness: with maxHistoryLength 3 and five sequential successful
refresh ticks, the history ends with length exactly 3. -/
theorem bounded_history_c1_witness :
    ((⟨true, 3⟩ : HookConfig).isAvailable = true ∧
      (⟨true, 3⟩ : HookConfig).maxHistoryLength <
        (List.replicate 5 (TickInput.mk none none none 0)).length) ∧
    (runTicks ⟨true, 3⟩ (List.replicate 5 (TickInput.mk none none none 0))
        (sessionInit ⟨true, 3⟩)).state.history.length = 3 :=
  ⟨⟨rfl, by decide⟩,
    (bounded_history_c1 ⟨true, 3⟩ .clearHistoryCall initialHookState
      (List.replicate 5 (TickInput.mk none none none 0)) rfl (by decide)).2.2⟩

/-- C2: when a refresh is in flight (the guard is set), a second
`refreshStats` trigger is a complete no-op — the machine state is unchanged
and no fetch is issued — and two back-to-back triggers from an idle hook
produce exactly one set of the three fetch calls, the second trigger adding
nothing to the state produced by the first. -/
theorem refresh_guard_c2 (cfg : HookConfig) (s sIdle : HookState)
    (hav : cfg.isAvailable = true) (hrun : s.isRunning = true)
    (hidle : sIdle.isRunning = false) :
    hookStep cfg .refreshCall s = s ∧
    (hookStep cfg .refreshCall (hookStep cfg .refreshCall sIdle)).memFetches =
        sIdle.memFetches + 1 ∧
    (hookStep cfg .refreshCall (hookStep cfg .refreshCall sIdle)).netFetches =
        sIdle.netFetches + 1 ∧
    (hookStep cfg .refreshCall (hookStep cfg .refreshCall sIdle)).procFetches =
        sIdle.procFetches + 1 ∧
    (hookStep cfg .refreshCall (hookStep cfg .refreshCall sIdle)).state =
        (hookStep cfg .refreshCall sIdle).state := by
  refine ⟨?_, ?_⟩
  · simp [hookStep, hav, hrun]
  · simp [hookStep, hav, hidle]

/-- C2 witness: from an idle available hook, the double trigger makes one
fetch set; from an in-flight hook, the trigger changes nothing. -/
theorem refresh_guard_c2_witness :
    ((⟨true, 60⟩ : HookConfig).isAvailable = true ∧
      ({ initialHookState with isRunning := true } : HookState).isRunning = true ∧
      initialHookState.isRunning = false) ∧
    hookStep ⟨true, 60⟩ .refreshCall { initialHookState with isRunning := true } =
      { initialHookState with isRunning := true } ∧
    (hookStep ⟨true, 60⟩ .refreshCall
        (hookStep ⟨true, 60⟩ .refreshCall initialHookState)).memFetches =
      initialHookState.memFetches + 1 :=
  ⟨⟨rfl, rfl, rfl⟩,
    (refresh_guard_c2 ⟨true, 60⟩ { initialHookState with isRunning := true }
      initialHookState rfl rfl rfl).1,
    (refresh_guard_c2 ⟨true, 60⟩ { initialHookState with isRunning := true }
      initialHookState rfl rfl rfl).2.1⟩

/-- C3: when availability is false, `refreshStats` makes no fetch of any
kind (all four counters unchanged), sets the error to a non-null value,
sets `isLoading` to false, and leaves the data fields untouched. -/
theorem availability_gating_c3 (cfg : HookConfig) (s : HookState)
    (hna : cfg.isAvailable = false) :
    (hookStep cfg .refreshCall s).memFetches = s.memFetches ∧
    (hookStep cfg .refreshCall s).netFetches = s.netFetches ∧
    (hookStep cfg .refreshCall s).procFetches = s.procFetches ∧
    (hookStep cfg .refreshCall s).infoFetches = s.infoFetches ∧
    (hookStep cfg .refreshCall s).state.error.isSome = true ∧
    (hookStep cfg .refreshCall s).state.isLoading = false ∧
    (hookStep cfg .refreshCall s).state.memory = s.state.memory ∧
    (hookStep cfg .refreshCall s).state.network = s.state.network ∧
    (hookStep cfg .refreshCall s).state.history = s.state.history := by
  simp [hookStep, hna]

/-- C3 witness: the unavailable hook, triggered from the initial state,
keeps all fetch counters at zero, gets a non-null error and stops loading. -/
theorem availability_gating_c3_witness :
    ((⟨false, 60⟩ : HookConfig).isAvailable = false) ∧
    (hookStep ⟨false, 60⟩ .refreshCall initialHookState).memFetches =
      initialHookState.memFetches ∧
    (hookStep ⟨false, 60⟩ .refreshCall initialHookState).state.error.isSome =
      true ∧
    (hookStep ⟨false, 60⟩ .refreshCall initialHookState).state.isLoading =
      false :=
  ⟨rfl,
    (availability_gating_c3 ⟨false, 60⟩ initialHookState rfl).1,
    (availability_gating_c3 ⟨false, 60⟩ initialHookState rfl).2.2.2.2.1,
    (availability_gating_c3 ⟨false, 60⟩ initialHookState rfl).2.2.2.2.2.1⟩

/-- C4: a settled tick whose network fetch resolved to null while the memory
fetch resolved to a value appends a history point with `network = none` and
`memory = some value` (it is the last point of the history), stores those
snapshot values, and leaves the error field null. -/
theorem partial_null_tolerance_c4 (cfg : HookConfig) (s : HookState)
    (m : IMemoryStats) (procs : Option (List IProcessInfo)) (ts : Int)
    (hrun : s.isRunning = true) (hpos : 0 < cfg.maxHistoryLength) :
    (hookStep cfg (.refreshSettle (some m) none procs ts) s).state.history.getLast? =
        some { timestamp := ts, memory := some m, network := none } ∧
    (hookStep cfg (.refreshSettle (some m) none procs ts) s).state.error = none ∧
    (hookStep cfg (.refreshSettle (some m) none procs ts) s).state.memory =
        some m ∧
    (hookStep cfg (.refreshSettle (some m) none procs ts) s).state.network =
        none := by
  refine ⟨?_, ?_, ?_, ?_⟩
  · simp only [hookStep, hrun, if_true]
    exact appendBounded_getLast _ _ _ hpos
  · simp [hookStep, hrun]
  · simp [hookStep, hrun]
  · simp [hookStep, hrun]

/-- C4 witness: an in-flight hook settling with memory data and a null
network result produces an errorless state whose last history point carries
the memory value and a null network field. -/
theorem partial_null_tolerance_c4_witness :
    (({ initialHookState with isRunning := true } : HookState).isRunning = true ∧
      0 < (⟨true, 60⟩ : HookConfig).maxHistoryLength) ∧
    (hookStep ⟨true, 60⟩
        (.refreshSettle (some (IMemoryStats.mk 100 40 60 40)) none none 7)
        { initialHookState with isRunning := true }).state.history.getLast? =
      some { timestamp := 7, memory := some (IMemoryStats.mk 100 40 60 40),
             network := none } ∧
    (hookStep ⟨true, 60⟩
        (.refreshSettle (some (IMemoryStats.mk 100 40 60 40)) none none 7)
        { initialHookState with isRunning := true }).state.error = none :=
  ⟨⟨rfl, by decide⟩,
    (partial_null_tolerance_c4 ⟨true, 60⟩
      { initialHookState with isRunning := true }
      (IMemoryStats.mk 100 40 60 40) none 7 rfl (by decide)).1,
    (partial_null_tolerance_c4 ⟨true, 60⟩
      { initialHookState with isRunning := true }
      (IMemoryStats.mk 100 40 60 40) none 7 rfl (by decide)).2.1⟩

/-- C5: `clearHistory` empties the history and leaves every other state
field, the guard and the fetch counters unchanged; a second clear leaves the
history empty again; and a tick that settles after a mid-refresh clear
appends exactly one point to the now-empty buffer. -/
theorem clear_history_c5 (cfg : HookConfig) (s : HookState)
    (m : Option IMemoryStats) (n : Option INetworkStats)
    (procs : Option (List IProcessInfo)) (ts : Int)
    (hrun : s.isRunning = true) (hpos : 0 < cfg.maxHistoryLength) :
    (hookStep cfg .clearHistoryCall s).state.history = [] ∧
    (hookStep cfg .clearHistoryCall s).state.memory = s.state.memory ∧
    (hookStep cfg .clearHistoryCall s).state.network = s.state.network ∧
    (hookStep cfg .clearHistoryCall s).state.systemInfo = s.state.systemInfo ∧
    (hookStep cfg .clearHistoryCall s).state.processes = s.state.processes ∧
    (hookStep cfg .clearHistoryCall s).state.isLoading = s.state.isLoading ∧
    (hookStep cfg .clearHistoryCall s).state.error = s.state.error ∧
    (hookStep cfg .clearHistoryCall s).isRunning = s.isRunning ∧
    (hookStep cfg .clearHistoryCall s).memFetches = s.memFetches ∧
    (hookStep cfg .clearHistoryCall s).netFetches = s.netFetches ∧
    (hookStep cfg .clearHistoryCall s).procFetches = s.procFetches ∧
    (hookStep cfg .clearHistoryCall s).infoFetches = s.infoFetches ∧
    (hookStep cfg .clearHistoryCall (hookStep cfg .clearHistoryCall s)).state.history = [] ∧
    (hookStep cfg (.refreshSettle m n procs ts)
        (hookStep cfg .clearHistoryCall s)).state.history =
      [{ timestamp := ts, memory := m, network := n }] := by
  have hcap : ¬ cfg.maxHistoryLength < 1 := by omega
  refine ⟨rfl, rfl, rfl, rfl, rfl, rfl, rfl, rfl, rfl, rfl, rfl, rfl, rfl, ?_⟩
  simp [hookStep, hrun, appendBounded, hcap]

/-- C5 witness: clearing from an in-flight hook with a nonempty history
leaves the history empty, and the settling tick then appends exactly one
point. -/
theorem clear_history_c5_witness :
    (({ initialHookState with isRunning := true } : HookState).isRunning = true ∧
      0 < (⟨true, 60⟩ : HookConfig).maxHistoryLength) ∧
    (hookStep ⟨true, 60⟩ .clearHistoryCall
        { initialHookState with isRunning := true }).state.history = [] ∧
    (hookStep ⟨true, 60⟩ (.refreshSettle none none none 9)
        (hookStep ⟨true, 60⟩ .clearHistoryCall
          { initialHookState with isRunning := true })).state.history =
      [{ timestamp := 9, memory := none, network := none }] :=
  ⟨⟨rfl, by decide⟩,
    (clear_history_c5 ⟨true, 60⟩ { initialHookState with isRunning := true }
      none none none 9 rfl (by decide)).1,
    (clear_history_c5 ⟨true, 60⟩ { initialHookState with isRunning := true }
      none none none 9 rfl (by decide)).2.2.2.2.2.2.2.2.2.2.2.2.2⟩

/-- C6: refresh steps (both the call and the settlement) never invoke the
identity fetch and never change the stored system info, and across any
number of successive refresh ticks from session start the identity query
has been invoked exactly once. -/
theorem system_identity_once_c6 (cfg : HookConfig) (s : HookState)
    (m : Option IMemoryStats) (n : Option INetworkStats)
    (procs : Option (List IProcessInfo)) (ts : Int)
    (inputs : List TickInput) (hav : cfg.isAvailable = true) :
    (hookStep cfg .refreshCall s).infoFetches = s.infoFetches ∧
    (hookStep cfg .refreshCall s).state.systemInfo = s.state.systemInfo ∧
    (hookStep cfg (.refreshSettle m n procs ts) s).infoFetches = s.infoFetches ∧
    (hookStep cfg (.refreshSettle m n procs ts) s).state.systemInfo =
        s.state.systemInfo ∧
    (runTicks cfg inputs (sessionInit cfg)).infoFetches = 1 := by
  have hinit_run : (sessionInit cfg).isRunning = false := by
    unfold sessionInit mountEffect
    split_ifs
    all_goals rfl
  have hinit_info : (sessionInit cfg).infoFetches = 1 := by
    simp [sessionInit, mountEffect, hav, initialHookState]
  obtain ⟨-, -, hinfo, -⟩ := runTicks_spec hav inputs (sessionInit cfg) hinit_run
  refine ⟨?_, ?_, ?_, ?_, ?_⟩
  · simp only [hookStep]
    split_ifs <;> rfl
  · simp only [hookStep]
    split_ifs <;> rfl
  · simp only [hookStep]
    split_ifs <;> rfl
  · simp only [hookStep]
    split_ifs <;> rfl
  · rw [hinfo, hinit_info]

/-- C6 witness: across ten successive ticks of an available hook the
identity-fetch counter stays at one, and one refresh call leaves it and the
stored system info unchanged. -/
theorem system_identity_once_c6_witness :
    ((⟨true, 60⟩ : HookConfig).isAvailable = true) ∧
    (runTicks ⟨true, 60⟩ (List.replicate 10 (TickInput.mk none none none 0))
        (sessionInit ⟨true, 60⟩)).infoFetches = 1 ∧
    (hookStep ⟨true, 60⟩ .refreshCall initialHookState).infoFetches =
      initialHookState.infoFetches ∧
    (hookStep ⟨true, 60⟩ .refreshCall initialHookState).state.systemInfo =
      initialHookState.state.systemInfo :=
  ⟨rfl,
    (system_identity_once_c6 ⟨true, 60⟩ initialHookState none none none 0
      (List.replicate 10 (TickInput.mk none none none 0)) rfl).2.2.2.2,
    (system_identity_once_c6 ⟨true, 60⟩ initialHookState none none none 0
      (List.replicate 10 (TickInput.mk none none none 0)) rfl).1,
    (system_identity_once_c6 ⟨true, 60⟩ initialHookState none none none 0
      (List.replicate 10 (TickInput.mk none none none 0)) rfl).2.1⟩

/-- C7 counterexample: a runtime whose capability object exposes a callable
`getMemoryStats` but none of the other three query functions is still
reported available, so availability is not equivalent to all four adapter
query functions being present and callable. -/
theorem availability_detector_c7_counterexample :
    isElectronStatsAvailable ⟨true, some ⟨true, false, false, false⟩⟩ = true ∧
    allStatsQueryFunctionsCallable ⟨true, some ⟨true, false, false, false⟩⟩ =
      false := by
  decide

/-- C7 amended: the one-time availability check returns true iff `window`
is defined, `window.electronAPI` is defined, and its memory query
(`getMemoryStats`) is a callable function; the other three query functions
are not probed. -/
theorem availability_detector_c7_amended (w : RuntimeWindow) :
    isElectronStatsAvailable w = true ↔
      w.windowDefined = true ∧
        ∃ api, w.electronAPI = some api ∧ api.getMemoryStats = true := by
  cases w with
  | mk d api =>
      cases api with
      | none => simp [isElectronStatsAvailable]
      | some a => simp [isElectronStatsAvailable, Bool.and_eq_true]

/-- C7 witness: a runtime with all four functions callable is detected. -/
theorem availability_detector_c7_witness :
    isElectronStatsAvailable ⟨true, some ⟨true, true, true, true⟩⟩ = true :=
  (availability_detector_c7_amended ⟨true, some ⟨true, true, true, true⟩⟩).mpr
    ⟨rfl, ⟨true, true, true, true⟩, rfl, rfl⟩

/-- C8 counterexample: when availability is false, the error the code
installs is the string "Electron API not available", not the string
"stats source not available" the claim demands. -/
theorem unavailable_error_c8_counterexample :
    (hookStep ⟨false, 60⟩ .refreshCall initialHookState).state.error =
        some "Electron API not available" ∧
    (hookStep ⟨false, 60⟩ .refreshCall initialHookState).state.error ≠
        some "stats source not available" := by
  refine ⟨rfl, by decide⟩

/-- C8 amended: when availability is false, `refreshStats` sets the error
field to exactly the non-null string "Electron API not available", sets
`isLoading` to false, and returns without making any fetch. -/
theorem unavailable_error_c8_amended (cfg : HookConfig) (s : HookState)
    (hna : cfg.isAvailable = false) :
    (hookStep cfg .refreshCall s).state.error =
        some "Electron API not available" ∧
    (hookStep cfg .refreshCall s).state.isLoading = false ∧
    (hookStep cfg .refreshCall s).memFetches = s.memFetches ∧
    (hookStep cfg .refreshCall s).netFetches = s.netFetches ∧
    (hookStep cfg .refreshCall s).procFetches = s.procFetches ∧
    (hookStep cfg .refreshCall s).infoFetches = s.infoFetches := by
  simp [hookStep, hna]

/-- C8 witness: triggering the unavailable hook from its initial state
installs exactly the string "Electron API not available" and stops
loading. -/
theorem unavailable_error_c8_witness :
    ((⟨false, 60⟩ : HookConfig).isAvailable = false) ∧
    (hookStep ⟨false, 60⟩ .refreshCall initialHookState).state.error =
      some "Electron API not available" ∧
    (hookStep ⟨false, 60⟩ .refreshCall initialHookState).state.isLoading =
      false :=
  ⟨rfl, (unavailable_error_c8_amended ⟨false, 60⟩ initialHookState rfl).1,
    (unavailable_error_c8_amended ⟨false, 60⟩ initialHookState rfl).2.1⟩

/-- Rounding a CPU value to two decimals is monotone, so ranking survives
the handler's per-entry rounding. -/
theorem roundCpu_mono {a b : ℚ} (h : a ≤ b) : roundCpu a ≤ roundCpu b := by
  unfold roundCpu jsRound
  gcongr

/-- C9: the top-processes query returns at most `count` entries (for every
requested count), the returned sequence is ranked by descending CPU, and the
consumer-selectable ordering sorts the displayed list by descending
`cpu` or descending `memoryPercent` according to the selected key. -/
theorem top_processes_shape_c9 (list : List SIProcess) (memTotal : ℚ)
    (count : Nat) (ps : List IProcessInfo) :
    (getTopProcesses list memTotal count).length ≤ count ∧
    List.Pairwise (fun a b : IProcessInfo => b.cpu ≤ a.cpu)
        (getTopProcesses list memTotal count) ∧
    List.Pairwise (fun a b : IProcessInfo => b.cpu ≤ a.cpu)
        (sortedProcesses .cpu (some ps)) ∧
    List.Pairwise (fun a b : IProcessInfo => b.memoryPercent ≤ a.memoryPercent)
        (sortedProcesses .memory (some ps)) := by
  have hsorted : List.Pairwise procBefore (list.insertionSort procBefore) :=
    List.sorted_insertionSort procBefore list
  have htake : List.Pairwise procBefore
      ((list.insertionSort procBefore).take count) :=
    List.Pairwise.sublist (List.take_sublist count _) hsorted
  refine ⟨?_, ?_, ?_, ?_⟩
  · by_cases h0 : list.length = 0 <;> simp [getTopProcesses, h0]
  · by_cases h0 : list.length = 0
    · simp [getTopProcesses, h0]
    · simp only [getTopProcesses, h0, if_false]
      rw [List.pairwise_map]
      refine htake.imp ?_
      intro a b hab
      have hle : b.cpu ≤ a.cpu := by
        rcases hab with hlt | ⟨heq, -⟩
        · exact le_of_lt hlt
        · exact le_of_eq heq
      exact roundCpu_mono hle
  · exact (List.sorted_insertionSort (consumerBefore .cpu) ps).imp fun h => h
  · exact (List.sorted_insertionSort (consumerBefore .memory) ps).imp fun h => h

/-- C10: `isLoading` is monotone: it is true in the initial state, and every
machine step — the refresh call in both its unavailable and guarded and
fetching branches, the tick settlement, clear-history, and the identity
merge, as well as the mount effect itself — either sets it to false or
leaves it unchanged, so once false it never becomes true again. -/
theorem isLoading_monotone_c10 :
    createInitialState.isLoading = true ∧
    (∀ (cfg : HookConfig) (e : HookEvent) (s : HookState),
      (hookStep cfg e s).state.isLoading = true → s.state.isLoading = true) ∧
    (∀ (cfg : HookConfig) (s : HookState),
      (mountEffect cfg s).state.isLoading = s.state.isLoading) := by
  refine ⟨rfl, ?_, ?_⟩
  · intro cfg e s h
    cases e with
    | refreshCall =>
        by_cases hav : cfg.isAvailable = false
        · simp [hookStep, hav] at h
        · by_cases hr : s.isRunning
          · simpa [hookStep, hav, hr] using h
          · simpa [hookStep, hav, hr] using h
    | refreshSettle m n procs ts =>
        by_cases hr : s.isRunning
        · simp [hookStep, hr] at h
        · simpa [hookStep, hr] using h
    | clearHistoryCall => simpa [hookStep] using h
    | systemInfoSettle info => simpa [hookStep] using h
  · intro cfg s
    unfold mountEffect
    split_ifs
    all_goals rfl

/-- C10 witness: a step that leaves loading true (clearing history in the
initial state) indeed started from a loading state. -/
theorem isLoading_monotone_c10_witness :
    (hookStep ⟨true, 60⟩ .clearHistoryCall initialHookState).state.isLoading =
      true ∧
    initialHookState.state.isLoading = true :=
  ⟨rfl,
    isLoading_monotone_c10.2.1 ⟨true, 60⟩ .clearHistoryCall initialHookState rfl⟩
